import Mathlib

/-!
Verification of the animated-character core of `animated-character.js`
(PixiJS animated character system): the animation registry and its
transition/fallback state machine (`AnimatedCharacter`), the spritesheet
slicer (`TextureFactory.createFrameTextures`), and the loading factory
(`CreateCharacterWithManyAnimations`).

The Renderable Sprite Host (the `PIXI.AnimatedSprite` superclass) is
modelled by the capability surface the source actually uses: an active
frame sequence, a playback speed, a play/pause flag, the displayed frame
index, a visibility flag, plus a counter of frame-sequence swaps that
records each observable host mutation batch.  String-keyed JS objects are
modelled as insertion-ordered association lists (`jsGet`/`jsSet`), which
matches JS property enumeration order for the non-integer-like direction
and animation names this code uses.  `console.error` output is modelled
as an error log carried in the state.  Playback speeds are JS numbers
used only for storage and comparison, modelled as rationals.
-/

namespace AnimChar

/-- A texture region: a rectangular sub-view `(x, y, w, h)` over a raster
image, as built by `new PIXI.Rectangle(i*frameWidth, rowIndex*frameHeight,
frameWidth, frameHeight)`. -/
structure Region where
  x : Nat
  y : Nat
  w : Nat
  h : Nat
  deriving DecidableEq

/-- A decoded raster image as delivered by the Asset Provider: only its
dimensions matter to the slicer. -/
structure Image where
  width : Nat
  height : Nat
  deriving DecidableEq

/-- JS object property read on a string-keyed object. -/
def jsGet {α : Type} : List (String × α) → String → Option α
  | [], _ => none
  | (k', v) :: rest, k => if k' = k then some v else jsGet rest k

/-- JS object property write: overwrite in place when the key already
exists, otherwise append (insertion-order semantics of JS objects for
non-integer-like keys). -/
def jsSet {α : Type} : List (String × α) → String → α → List (String × α)
  | [], k, v => [(k, v)]
  | (k', v') :: rest, k, v =>
      if k' = k then (k, v) :: rest else (k', v') :: jsSet rest k v

/-- `Object.keys` of a modelled JS object. -/
def keysOf {α : Type} (m : List (String × α)) : List String := m.map Prod.fst

/-- One row of the spritesheet: the `frameCount` regions
`(i*frameWidth, rowIndex*frameHeight, frameWidth, frameHeight)` for
`i` in `[0, frameCount)`, in column order (the inner loop of
`createFrameTextures`). -/
def sliceRow (rowIndex frameCount frameWidth frameHeight : Nat) : List Region :=
  (List.range frameCount).map fun i =>
    ⟨i * frameWidth, rowIndex * frameHeight, frameWidth, frameHeight⟩

/-- `TextureFactory.createFrameTextures(baseTexture, frameWidth,
frameHeight, directions)`: computes `frameCount = floor(width/frameWidth)`
and `rowCount = floor(height/frameHeight)`, then for each row stores the
row's regions under `directions[rowIndex]`.  When `rowIndex` is beyond
`directions`, JS evaluates `directions[rowIndex]` to `undefined`, which as
a property key coerces to the string `"undefined"`; `.getD "undefined"`
models exactly that.  Building `textureData[direction] = []` and pushing
each frame equals setting the key to the whole row at once.  The modelled
precondition is `frameWidth, frameHeight > 0` (the claims' precondition;
JS division by zero would give `Infinity` instead of `0`). -/
def createFrameTextures (baseTexture : Image) (frameWidth frameHeight : Nat)
    (directions : List String) : List (String × List Region) × Nat :=
  let frameCount := baseTexture.width / frameWidth
  let rowCount := baseTexture.height / frameHeight
  let textureData := (List.range rowCount).foldl
    (fun td rowIndex =>
      let direction := (directions.get? rowIndex).getD "undefined"
      jsSet td direction (sliceRow rowIndex frameCount frameWidth frameHeight))
    []
  (textureData, frameCount)

/-- The Renderable Sprite Host state: the fields of the
`PIXI.AnimatedSprite` superclass that the source reads or writes.
`swaps` counts the frame-sequence swap batches applied to the host
(each execution of the texture-replacing block of `changeAnimation`),
so that "no host mutation" is observable in the model. -/
structure Host where
  textures : List Region
  animationSpeed : ℚ
  currentFrame : Int
  playing : Bool
  visible : Bool
  swaps : Nat
  deriving DecidableEq

/-- `this.textures = seq` (one observable sequence swap). -/
def Host.setTextures (h : Host) (seq : List Region) : Host :=
  { h with textures := seq, swaps := h.swaps + 1 }

/-- `this.animationSpeed = q`. -/
def Host.setAnimationSpeed (h : Host) (q : ℚ) : Host :=
  { h with animationSpeed := q }

/-- `this.gotoAndPlay(f)`: seek and resume. -/
def Host.gotoAndPlay (h : Host) (f : Int) : Host :=
  { h with currentFrame := f, playing := true }

/-- `this.gotoAndStop(f)`: seek and hold. -/
def Host.gotoAndStop (h : Host) (f : Int) : Host :=
  { h with currentFrame := f, playing := false }

/-- `this.stop()`. -/
def Host.stopHost (h : Host) : Host := { h with playing := false }

/-- `this.play()`. -/
def Host.playHost (h : Host) : Host := { h with playing := true }

/-- One registered animation: the per-direction frame sequences, the
frame count, the playback speed and `Object.keys(textureData)` (the
`directions` field stored by `addAnimation`). -/
structure AnimationEntry where
  textures : List (String × List Region)
  frameCount : Nat
  speed : ℚ
  directions : List String
  deriving DecidableEq

/-- The `AnimatedCharacter` state: the host superclass state plus the
animation registry, the current animation name (`null` before the first
registration), the current direction, the stored locomotion speed, and
the `console.error` log. -/
structure CharState where
  host : Host
  animations : List (String × AnimationEntry)
  currentAnimation : Option String
  currentDirection : String
  moveSpeed : Nat
  errorLog : List String
  deriving DecidableEq

/-- The placeholder `PIXI.Texture.EMPTY` used by the constructor. -/
def emptyTexture : Region := ⟨0, 0, 0, 0⟩

/-- The `AnimatedCharacter` constructor: empty placeholder sequence,
no registered animations, `currentAnimation = null`,
`currentDirection = "down"`, locomotion speed 5, playing (the
constructor calls `this.play()`), invisible. -/
def initialCharacter : CharState :=
  { host := { textures := [emptyTexture], animationSpeed := 1, currentFrame := 0,
              playing := true, visible := false, swaps := 0 },
    animations := [],
    currentAnimation := none,
    currentDirection := "down",
    moveSpeed := 5,
    errorLog := [] }

/-- JS truthiness test `!this.currentAnimation` on the nullable current
animation name: `null` and the empty string are falsy. -/
def jsFalsy : Option String → Bool
  | none => true
  | some s => decide (s = "")

/-- The `console.error` message of `changeAnimation` for an unknown name. -/
def unknownAnimationMsg (animationName : String) : String :=
  "La animación \"" ++ animationName ++ "\" no existe"

/-- Direction resolution of `changeAnimation` after the null-default: if
the requested direction is not a key of the entry's texture mapping, fall
back to `Object.keys(entry.textures)[0]` (`none` models the `undefined`
produced for an empty mapping). -/
def resolveDirection (entry : AnimationEntry) (requested : String) : Option String :=
  if (jsGet entry.textures requested).isSome then some requested
  else (keysOf entry.textures).head?

/-- `changeAnimation(animationName, direction = null)`.  Unknown name:
`console.error` and return unchanged.  Otherwise resolve the direction
(defaulting to `currentDirection`, with first-key fallback), skip when
`(currentAnimation, currentDirection)` already equals the resolved pair,
and otherwise capture the play flag and displayed frame, swap the host's
sequence and speed, seek to `min(capturedFrame, newLength - 1)` with the
captured flag re-applied, and only then commit the new pair.  When the
entry's mapping is empty the resolved direction is `undefined` and the
source hands `undefined` to the host / reads `.length` of `undefined`,
which throws before any field of the model is written; `.error` returns
the state at the throw. -/
def changeAnimation (s : CharState) (animationName : String)
    (direction : Option String) : Except CharState CharState :=
  match jsGet s.animations animationName with
  | none => .ok { s with errorLog := unknownAnimationMsg animationName :: s.errorLog }
  | some entry =>
    let requested := direction.getD s.currentDirection
    let resolved := resolveDirection entry requested
    if s.currentAnimation = some animationName ∧ resolved = some s.currentDirection then
      .ok s
    else
      match resolved with
      | none => .error s
      | some d =>
        let wasPlaying := s.host.playing
        let capturedFrame := s.host.currentFrame
        let seq := (jsGet entry.textures d).getD []
        let targetFrame : Int := min capturedFrame ((seq.length : Int) - 1)
        let h1 := (s.host.setTextures seq).setAnimationSpeed entry.speed
        let h2 := if wasPlaying then h1.gotoAndPlay targetFrame
                  else h1.gotoAndStop targetFrame
        .ok { s with host := h2,
                     currentAnimation := some animationName,
                     currentDirection := d }

/-- The entry record built by `addAnimation`. -/
def mkEntry (textureData : List (String × List Region)) (frameCount : Nat)
    (speed : ℚ) : AnimationEntry :=
  { textures := textureData, frameCount := frameCount, speed := speed,
    directions := keysOf textureData }

/-- `addAnimation(name, textureData, frameCount, speed)`: register (or
overwrite) the entry; when `!this.currentAnimation` is truthy-false
(first registration, or a current name equal to the falsy `""`), make the
sprite visible and auto-activate via
`changeAnimation(name, this.currentDirection)`. -/
def addAnimation (s : CharState) (name : String)
    (textureData : List (String × List Region)) (frameCount : Nat)
    (speed : ℚ) : Except CharState CharState :=
  let s1 := { s with animations := jsSet s.animations name (mkEntry textureData frameCount speed) }
  if jsFalsy s1.currentAnimation then
    let s2 := { s1 with host := { s1.host with visible := true } }
    changeAnimation s2 name (some s2.currentDirection)
  else
    .ok s1

/-- `changeDirection(direction)`: delegate to `changeAnimation` when a
current animation is (truthily) set, else return unchanged. -/
def changeDirection (s : CharState) (direction : String) : Except CharState CharState :=
  if jsFalsy s.currentAnimation then .ok s
  else changeAnimation s (s.currentAnimation.getD "") (some direction)

/-- `pause()`. -/
def pause (s : CharState) : CharState := { s with host := s.host.stopHost }

/-- `play()`. -/
def playChar (s : CharState) : CharState := { s with host := s.host.playHost }

/-- `getAvailableAnimations()`. -/
def getAvailableAnimations (s : CharState) : List String := keysOf s.animations

/-- `getAvailableDirections(animationName)`. -/
def getAvailableDirections (s : CharState) (animationName : String) : List String :=
  match jsGet s.animations animationName with
  | some e => e.directions
  | none => []

/-- The `this` object after an operation, whether it returned normally or
threw (a thrown exception leaves the mutations made so far in place). -/
def outState : Except CharState CharState → CharState
  | .ok s => s
  | .error s => s

/-- The result statistics of the loading factory. -/
structure LoadResults where
  successful : List String
  failed : List (String × String)
  total : Nat
  deriving DecidableEq

/-- One iteration of the factory's `for (const [animName, config] of
Object.entries(animationConfigs))` loop, over the accumulator
(character so far, successful names, failed `(name, reason)` pairs).
A load failure is caught and recorded; a throw out of `addAnimation`
(degenerate slice, see `changeAnimation`) is likewise caught, keeping the
mutations made before the throw. -/
def factoryStep (loader : String → Except String Image)
    (frameW frameH : Nat) (directions : List String) (basePath : String)
    (acc : CharState × List String × List (String × String))
    (cfg : String × ℚ) : CharState × List String × List (String × String) :=
  let (ch, succ, fail) := acc
  match loader (basePath ++ cfg.1 ++ ".png") with
  | .error e => (ch, succ, fail ++ [(cfg.1, e)])
  | .ok texture =>
    let result := createFrameTextures texture frameW frameH directions
    match addAnimation ch cfg.1 result.1 result.2 cfg.2 with
    | .ok ch' => (ch', succ ++ [cfg.1], fail)
    | .error ch' => (ch', succ, fail ++ [(cfg.1, "TypeError")])

/-- `AnimatedCharacter.CreateCharacterWithManyAnimations(animationConfigs,
frameW, frameH, directions, basePath)`: build a fresh character, process
every configured animation independently through the Asset Provider
(`loader`), the slicer and `addAnimation`, and return the character with
the load statistics (`total` is the number of configured animations). -/
def createCharacterWithManyAnimations (loader : String → Except String Image)
    (animationConfigs : List (String × ℚ)) (frameW frameH : Nat)
    (directions : List String) (basePath : String) : CharState × LoadResults :=
  let start : CharState × List String × List (String × String) :=
    (initialCharacter, [], [])
  let res := animationConfigs.foldl (factoryStep loader frameW frameH directions basePath) start
  (res.1, { successful := res.2.1, failed := res.2.2,
            total := animationConfigs.length })

/-- The registry/state consistency invariant of the spec: whenever
`currentAnimation` is non-null it is a registered key and
`currentDirection` is a key of that entry's direction mapping. -/
def invHolds (s : CharState) : Bool :=
  match s.currentAnimation with
  | none => true
  | some nm =>
    match jsGet s.animations nm with
    | none => false
    | some e => (jsGet e.textures s.currentDirection).isSome

/-! ### Association-list facts about the modelled JS object operations -/

theorem jsGet_jsSet_self {α : Type} (m : List (String × α)) (k : String) (v : α) :
    jsGet (jsSet m k v) k = some v := by
  induction m with
  | nil => simp [jsSet, jsGet]
  | cons p rest ih =>
    obtain ⟨k', v'⟩ := p
    by_cases h : k' = k
    · subst h; simp [jsSet, jsGet]
    · simp [jsSet, jsGet, h, ih]

theorem jsGet_jsSet_ne {α : Type} (m : List (String × α)) (k k' : String) (v : α)
    (h : k' ≠ k) : jsGet (jsSet m k v) k' = jsGet m k' := by
  have h' : ¬(k = k') := fun e => h e.symm
  induction m with
  | nil => simp [jsSet, jsGet, h']
  | cons p rest ih =>
    obtain ⟨k'', v''⟩ := p
    by_cases hk : k'' = k
    · subst hk; simp [jsSet, jsGet, h']
    · simp [jsSet, jsGet, hk, ih]

theorem jsSet_of_not_mem {α : Type} (m : List (String × α)) (k : String) (v : α)
    (h : k ∉ keysOf m) : jsSet m k v = m ++ [(k, v)] := by
  induction m with
  | nil => simp [jsSet]
  | cons p rest ih =>
    obtain ⟨k', v'⟩ := p
    simp only [keysOf, List.map_cons, List.mem_cons, not_or] at h
    have h1 : ¬(k' = k) := fun e => h.1 e.symm
    simp [jsSet, h1, ih h.2]

theorem mem_keysOf_jsSet_self {α : Type} (m : List (String × α)) (k : String) (v : α) :
    k ∈ keysOf (jsSet m k v) := by
  induction m with
  | nil => simp [jsSet, keysOf]
  | cons p rest ih =>
    obtain ⟨k', v'⟩ := p
    by_cases hk : k' = k
    · subst hk; simp [jsSet, keysOf]
    · simp only [jsSet, if_neg hk, keysOf, List.map_cons, List.mem_cons]
      exact Or.inr ih

theorem mem_keysOf_jsSet_of_mem {α : Type} (m : List (String × α)) (k k' : String)
    (v : α) (h : k' ∈ keysOf m) : k' ∈ keysOf (jsSet m k v) := by
  induction m with
  | nil => simp [keysOf] at h
  | cons p rest ih =>
    obtain ⟨k'', v''⟩ := p
    simp only [keysOf, List.map_cons, List.mem_cons] at h
    by_cases hk : k'' = k
    · subst hk
      simpa [jsSet, keysOf] using h
    · simp only [jsSet, if_neg hk, keysOf, List.map_cons, List.mem_cons]
      rcases h with h | h
      · exact Or.inl h
      · exact Or.inr (ih h)

theorem jsSet_ne_nil {α : Type} (m : List (String × α)) (k : String) (v : α) :
    jsSet m k v ≠ [] := by
  cases m with
  | nil => simp [jsSet]
  | cons p rest => obtain ⟨k', v'⟩ := p; simp only [jsSet]; split <;> simp

theorem jsSet_forall_values {α : Type} (P : α → Prop) (m : List (String × α))
    (k : String) (v : α) (hm : ∀ p ∈ m, P p.2) (hv : P v) :
    ∀ p ∈ jsSet m k v, P p.2 := by
  induction m with
  | nil => simpa [jsSet] using hv
  | cons q rest ih =>
    obtain ⟨k', v'⟩ := q
    simp only [jsSet]
    split
    · intro p hp
      rcases List.mem_cons.1 hp with h | h
      · subst h; exact hv
      · exact hm p (List.mem_cons_of_mem _ h)
    · intro p hp
      rcases List.mem_cons.1 hp with h | h
      · subst h; exact hm _ (List.mem_cons_self _ _)
      · exact ih (fun q hq => hm q (List.mem_cons_of_mem _ hq)) p h

/-- The fold that builds a JS object from an ordered list of property
writes. -/
def assocFold {α : Type} (ps : List (String × α)) (m : List (String × α)) :
    List (String × α) :=
  ps.foldl (fun acc p => jsSet acc p.1 p.2) m

theorem assocFold_nil {α : Type} (m : List (String × α)) : assocFold [] m = m := rfl

theorem assocFold_cons {α : Type} (p : String × α) (ps : List (String × α))
    (m : List (String × α)) : assocFold (p :: ps) m = assocFold ps (jsSet m p.1 p.2) := rfl

theorem assocFold_fresh {α : Type} (ps : List (String × α)) (m : List (String × α))
    (hnd : (ps.map Prod.fst).Nodup) (hfresh : ∀ k ∈ ps.map Prod.fst, k ∉ keysOf m) :
    assocFold ps m = m ++ ps := by
  induction ps generalizing m with
  | nil => simp [assocFold]
  | cons p rest ih =>
    obtain ⟨k, v⟩ := p
    simp only [List.map_cons, List.nodup_cons] at hnd
    have hfr : ∀ k' ∈ rest.map Prod.fst, k' ∉ keysOf (m ++ [(k, v)]) := by
      intro k' hk'
      simp only [keysOf, List.map_append, List.mem_append, List.map_cons, List.map_nil,
        List.mem_cons, List.not_mem_nil, or_false, not_or]
      refine ⟨hfresh k' (by simp [hk']), ?_⟩
      intro he
      exact hnd.1 (he ▸ hk')
    rw [assocFold_cons, jsSet_of_not_mem m k v (hfresh k (by simp)),
      ih (m ++ [(k, v)]) hnd.2 hfr]
    simp

theorem mem_keysOf_assocFold_of_mem_keys {α : Type} (ps m : List (String × α))
    (k : String) (h : k ∈ keysOf m) : k ∈ keysOf (assocFold ps m) := by
  induction ps generalizing m with
  | nil => simpa [assocFold] using h
  | cons p rest ih =>
    rw [assocFold_cons]
    exact ih _ (mem_keysOf_jsSet_of_mem _ _ _ _ h)

theorem mem_keysOf_assocFold {α : Type} (ps m : List (String × α)) (k : String)
    (h : k ∈ ps.map Prod.fst) : k ∈ keysOf (assocFold ps m) := by
  induction ps generalizing m with
  | nil => simp at h
  | cons p rest ih =>
    obtain ⟨k', v⟩ := p
    rw [assocFold_cons]
    rcases List.mem_cons.1 h with he | hm
    · subst he
      exact mem_keysOf_assocFold_of_mem_keys _ _ _ (mem_keysOf_jsSet_self _ _ _)
    · exact ih _ hm

theorem assocFold_ne_nil {α : Type} (ps m : List (String × α))
    (h : ps ≠ [] ∨ m ≠ []) : assocFold ps m ≠ [] := by
  induction ps generalizing m with
  | nil => rw [assocFold_nil]; exact h.resolve_left (by simp)
  | cons p rest ih =>
    rw [assocFold_cons]
    exact ih _ (Or.inr (jsSet_ne_nil _ _ _))

theorem assocFold_values {α : Type} (P : α → Prop) (ps m : List (String × α))
    (hm : ∀ p ∈ m, P p.2) (hps : ∀ p ∈ ps, P p.2) :
    ∀ p ∈ assocFold ps m, P p.2 := by
  induction ps generalizing m with
  | nil => simpa [assocFold] using hm
  | cons q rest ih =>
    rw [assocFold_cons]
    exact ih _ (jsSet_forall_values P m q.1 q.2 hm (hps q (by simp)))
      (fun p hp => hps p (List.mem_cons_of_mem _ hp))

/-! ### Facts about the spritesheet slicer -/

/-- The ordered list of `(label, row frames)` writes performed by the
slicer's outer loop. -/
def sliceRows (baseTexture : Image) (frameWidth frameHeight : Nat)
    (directions : List String) : List (String × List Region) :=
  (List.range (baseTexture.height / frameHeight)).map fun r =>
    ((directions.get? r).getD "undefined",
      sliceRow r (baseTexture.width / frameWidth) frameWidth frameHeight)

theorem createFrameTextures_fst (baseTexture : Image) (frameWidth frameHeight : Nat)
    (directions : List String) :
    (createFrameTextures baseTexture frameWidth frameHeight directions).1
      = assocFold (sliceRows baseTexture frameWidth frameHeight directions) [] := by
  simp [createFrameTextures, sliceRows, assocFold, List.foldl_map]

theorem createFrameTextures_snd (baseTexture : Image) (frameWidth frameHeight : Nat)
    (directions : List String) :
    (createFrameTextures baseTexture frameWidth frameHeight directions).2
      = baseTexture.width / frameWidth := rfl

theorem rangeMap_take (l : List String) (n : Nat) (hn : n ≤ l.length) :
    (List.range n).map (fun r => (l.get? r).getD "undefined") = l.take n := by
  induction n with
  | zero => simp
  | succ k ih =>
    have hk : k < l.length := hn
    rw [List.range_succ, List.map_append, ih (Nat.le_of_lt hk), List.take_succ]
    simp [List.get?_eq_getElem?, List.getElem?_eq_getElem hk]

theorem sliceRow_length (rowIndex frameCount frameWidth frameHeight : Nat) :
    (sliceRow rowIndex frameCount frameWidth frameHeight).length = frameCount := by
  simp [sliceRow]

theorem sliceRow_mem_bounds (w h frameWidth frameHeight rowIndex : Nat)
    (hrow : rowIndex < h / frameHeight) (r : Region)
    (hr : r ∈ sliceRow rowIndex (w / frameWidth) frameWidth frameHeight) :
    r.x + r.w ≤ w ∧ r.y + r.h ≤ h := by
  simp only [sliceRow, List.mem_map, List.mem_range] at hr
  obtain ⟨i, hi, rfl⟩ := hr
  constructor
  · calc i * frameWidth + frameWidth = (i + 1) * frameWidth := by ring
      _ ≤ (w / frameWidth) * frameWidth :=
        Nat.mul_le_mul (Nat.succ_le_of_lt hi) le_rfl
      _ ≤ w := Nat.div_mul_le_self w frameWidth
  · calc rowIndex * frameHeight + frameHeight = (rowIndex + 1) * frameHeight := by ring
      _ ≤ (h / frameHeight) * frameHeight :=
        Nat.mul_le_mul (Nat.succ_le_of_lt hrow) le_rfl
      _ ≤ h := Nat.div_mul_le_self h frameHeight

theorem createFrameTextures_ne_nil (baseTexture : Image) (frameWidth frameHeight : Nat)
    (directions : List String) (h : 0 < baseTexture.height / frameHeight) :
    (createFrameTextures baseTexture frameWidth frameHeight directions).1 ≠ [] := by
  rw [createFrameTextures_fst]
  refine assocFold_ne_nil _ _ (Or.inl ?_)
  simp only [sliceRows, ne_eq, List.map_eq_nil_iff, List.range_eq_nil]
  omega

/-! ### Case lemmas for the controller's transition operation -/

theorem resolveDirection_isSome (entry : AnimationEntry) (requested : String)
    (h : entry.textures ≠ []) : (resolveDirection entry requested).isSome := by
  unfold resolveDirection
  split
  · rfl
  · cases hl : entry.textures with
    | nil => exact absurd hl h
    | cons p rest => simp [hl, keysOf]

theorem resolveDirection_mem (entry : AnimationEntry) (requested d : String)
    (h : resolveDirection entry requested = some d) :
    (jsGet entry.textures d).isSome := by
  unfold resolveDirection at h
  split at h
  · cases h
    assumption
  · cases hl : entry.textures with
    | nil => rw [hl] at h; simp [keysOf] at h
    | cons p rest =>
      obtain ⟨k, v⟩ := p
      rw [hl] at h
      simp only [keysOf, List.map_cons, List.head?_cons, Option.some.injEq] at h
      subst h
      simp [jsGet]

theorem resolveDirection_self (entry : AnimationEntry) (d : String)
    (h : (jsGet entry.textures d).isSome) : resolveDirection entry d = some d := by
  unfold resolveDirection
  rw [if_pos h]

theorem changeAnimation_unknown (s : CharState) (animationName : String)
    (direction : Option String) (h : jsGet s.animations animationName = none) :
    changeAnimation s animationName direction
      = .ok { s with errorLog := unknownAnimationMsg animationName :: s.errorLog } := by
  unfold changeAnimation
  rw [h]

theorem changeAnimation_noop (s : CharState) (animationName : String)
    (direction : Option String) (entry : AnimationEntry)
    (hentry : jsGet s.animations animationName = some entry)
    (hcur : s.currentAnimation = some animationName)
    (hres : resolveDirection entry (direction.getD s.currentDirection)
      = some s.currentDirection) :
    changeAnimation s animationName direction = .ok s := by
  unfold changeAnimation
  rw [hentry]
  simp only [hres, hcur, and_self, if_pos]

theorem changeAnimation_throw (s : CharState) (animationName : String)
    (direction : Option String) (entry : AnimationEntry)
    (hentry : jsGet s.animations animationName = some entry)
    (hres : resolveDirection entry (direction.getD s.currentDirection) = none) :
    changeAnimation s animationName direction = .error s := by
  unfold changeAnimation
  rw [hentry]
  simp only [hres]
  rw [if_neg]
  intro hc
  cases hc.2

theorem changeAnimation_commit (s : CharState) (animationName : String)
    (direction : Option String) (entry : AnimationEntry) (d : String)
    (seq : List Region)
    (hentry : jsGet s.animations animationName = some entry)
    (hres : resolveDirection entry (direction.getD s.currentDirection) = some d)
    (hseq : jsGet entry.textures d = some seq)
    (hchange : ¬(s.currentAnimation = some animationName ∧ d = s.currentDirection)) :
    changeAnimation s animationName direction = .ok
      { s with
        host := { textures := seq, animationSpeed := entry.speed,
                  currentFrame := min s.host.currentFrame ((seq.length : Int) - 1),
                  playing := s.host.playing, visible := s.host.visible,
                  swaps := s.host.swaps + 1 },
        currentAnimation := some animationName,
        currentDirection := d } := by
  have hcond : ¬(s.currentAnimation = some animationName ∧
      resolveDirection entry (direction.getD s.currentDirection)
        = some s.currentDirection) := by
    rw [hres]
    intro hc
    exact hchange ⟨hc.1, Option.some.inj hc.2⟩
  unfold changeAnimation
  rw [hentry]
  simp only [hres] at hcond ⊢
  rw [if_neg hcond]
  rw [hseq]
  simp only [Option.getD_some, Host.setTextures, Host.setAnimationSpeed,
    Host.gotoAndPlay, Host.gotoAndStop]
  cases hp : s.host.playing <;> simp [hp]

/-! ### Preservation of the registry/state consistency invariant -/

theorem inv_changeAnimation (s : CharState) (animationName : String)
    (direction : Option String) (h : invHolds s = true) :
    invHolds (outState (changeAnimation s animationName direction)) = true := by
  cases hentry : jsGet s.animations animationName with
  | none =>
    rw [changeAnimation_unknown s animationName direction hentry]
    exact h
  | some entry =>
    cases hres : resolveDirection entry (direction.getD s.currentDirection) with
    | none =>
      rw [changeAnimation_throw s animationName direction entry hentry hres]
      exact h
    | some d =>
      by_cases hcond : s.currentAnimation = some animationName ∧ d = s.currentDirection
      · rw [changeAnimation_noop s animationName direction entry hentry hcond.1
          (by rw [hres, hcond.2])]
        exact h
      · obtain ⟨seq, hseq⟩ := Option.isSome_iff_exists.1
          (resolveDirection_mem entry _ d hres)
        rw [changeAnimation_commit s animationName direction entry d seq hentry hres
          hseq hcond]
        simp [outState, invHolds, hentry, hseq]

theorem inv_changeDirection (s : CharState) (direction : String)
    (h : invHolds s = true) :
    invHolds (outState (changeDirection s direction)) = true := by
  unfold changeDirection
  split
  · exact h
  · exact inv_changeAnimation s _ _ h

theorem inv_addAnimation (s : CharState) (name : String)
    (textureData : List (String × List Region)) (frameCount : Nat) (speed : ℚ)
    (h : invHolds s = true)
    (hre : ∀ nm, s.currentAnimation = some nm → name = nm →
      (jsGet textureData s.currentDirection).isSome) :
    invHolds (outState (addAnimation s name textureData frameCount speed)) = true := by
  unfold addAnimation
  dsimp only
  split
  · -- auto-activation branch: the pre-call state already satisfies the invariant
    apply inv_changeAnimation
    cases hcur : s.currentAnimation with
    | none => simp [invHolds, hcur]
    | some nm =>
      rename_i hf
      rw [hcur] at hf
      have hnm : nm = "" := by simpa [jsFalsy] using hf
      subst hnm
      by_cases hn : name = ""
      · subst hn
        simp [invHolds, hcur, jsGet_jsSet_self, mkEntry, hre "" hcur rfl]
      · have hne : ("" : String) ≠ name := fun e => hn e.symm
        simp only [invHolds, hcur, jsGet_jsSet_ne s.animations name "" _ hne]
        simpa [invHolds, hcur] using h
  · cases hcur : s.currentAnimation with
    | none => simp [invHolds, outState, hcur]
    | some nm =>
      by_cases hn : name = nm
      · subst hn
        simp [invHolds, outState, hcur, jsGet_jsSet_self, mkEntry, hre name hcur rfl]
      · have hne : nm ≠ name := fun e => hn e.symm
        simp only [invHolds, outState, hcur, jsGet_jsSet_ne s.animations name nm _ hne]
        simpa [invHolds, hcur] using h

/-! ### Factory lemmas -/

theorem addAnimation_first (s : CharState) (name : String)
    (textureData : List (String × List Region)) (frameCount : Nat) (speed : ℚ)
    (hcur : s.currentAnimation = none) (hne : textureData ≠ []) :
    ∃ s', addAnimation s name textureData frameCount speed = .ok s' ∧
      s'.animations = jsSet s.animations name (mkEntry textureData frameCount speed) := by
  unfold addAnimation
  dsimp only
  rw [hcur]
  rw [if_pos (show jsFalsy none = true from rfl)]
  have hentry : jsGet (jsSet s.animations name (mkEntry textureData frameCount speed))
      name = some (mkEntry textureData frameCount speed) := jsGet_jsSet_self _ _ _
  have hsome : (resolveDirection (mkEntry textureData frameCount speed)
      s.currentDirection).isSome := by
    apply resolveDirection_isSome
    simpa [mkEntry] using hne
  obtain ⟨d, hd⟩ := Option.isSome_iff_exists.1 hsome
  obtain ⟨seq, hseq⟩ := Option.isSome_iff_exists.1
    (resolveDirection_mem _ _ _ hd)
  rw [changeAnimation_commit _ name (some s.currentDirection)
    (mkEntry textureData frameCount speed) d seq hentry (by simpa using hd) hseq
    (by rintro ⟨hc, -⟩; simp at hc)]
  exact ⟨_, rfl, rfl⟩

theorem factory_step_count (loader : String → Except String Image)
    (frameW frameH : Nat) (directions : List String) (basePath : String)
    (configs : List (String × ℚ))
    (acc : CharState × List String × List (String × String)) :
    (configs.foldl (factoryStep loader frameW frameH directions basePath) acc).2.1.length
      + (configs.foldl (factoryStep loader frameW frameH directions basePath) acc).2.2.length
      = acc.2.1.length + acc.2.2.length + configs.length := by
  induction configs generalizing acc with
  | nil => simp
  | cons cfg rest ih =>
    rw [List.foldl_cons, ih]
    obtain ⟨ch, succ, fail⟩ := acc
    rcases hl : loader (basePath ++ cfg.1 ++ ".png") with e | texture
    · simp [factoryStep, hl]
      omega
    · rcases ha : addAnimation ch cfg.1
          (createFrameTextures texture frameW frameH directions).1
          (createFrameTextures texture frameW frameH directions).2 cfg.2 with ch' | ch'
      · simp [factoryStep, hl, ha]
        omega
      · simp [factoryStep, hl, ha]
        omega

/-! ### Concrete states used by the witnesses -/

/-- The playback speed 0.15 of the demo entries, as the rational 3/20. -/
def demoSpeed : ℚ := ⟨3, 20, by decide, by decide⟩

/-- The playback speed 0.1 of the demo "walk" entry, as the rational 1/10. -/
def walkSpeed : ℚ := ⟨1, 10, by decide, by decide⟩

/-- A 12-frame "run" entry with a single "down" direction. -/
def runEntry : AnimationEntry := mkEntry [("down", sliceRow 0 12 64 64)] 12 demoSpeed

/-- A 6-frame "walk" entry with a single "down" direction. -/
def walkEntry : AnimationEntry := mkEntry [("down", sliceRow 0 6 64 64)] 6 walkSpeed

/-- A 1-frame "hurt" entry registered only with direction "down". -/
def hurtEntry : AnimationEntry := mkEntry [("down", sliceRow 0 1 64 64)] 1 demoSpeed

/-- A character playing the 12-frame "run" cycle at displayed frame 9. -/
def demoState : CharState :=
  { host := { textures := sliceRow 0 12 64 64, animationSpeed := demoSpeed, currentFrame := 9,
              playing := true, visible := true, swaps := 1 },
    animations := [("run", runEntry), ("walk", walkEntry), ("hurt", hurtEntry)],
    currentAnimation := some "run",
    currentDirection := "down",
    moveSpeed := 5,
    errorLog := [] }

/-! ### The claims -/

/-- C1: whenever `changeAnimation` performs a real change (the target name
or the resolved direction differs from the current pair), the host
receives the target entry's sequence and speed and is left at frame index
`min(k, L2 - 1)` — where `k` is the displayed frame index and the play
flag are those captured from the pre-state, before any mutation — with
the captured play/pause flag re-applied. -/
theorem changeAnimation_frame_preserving (s : CharState) (animationName : String)
    (direction : Option String) (entry : AnimationEntry) (d : String)
    (seq : List Region)
    (hentry : jsGet s.animations animationName = some entry)
    (hres : resolveDirection entry (direction.getD s.currentDirection) = some d)
    (hseq : jsGet entry.textures d = some seq)
    (hchange : ¬(s.currentAnimation = some animationName ∧ d = s.currentDirection)) :
    ∃ s', changeAnimation s animationName direction = .ok s' ∧
      s'.host.textures = seq ∧
      s'.host.animationSpeed = entry.speed ∧
      s'.host.currentFrame = min s.host.currentFrame ((seq.length : Int) - 1) ∧
      s'.host.playing = s.host.playing ∧
      s'.currentAnimation = some animationName ∧
      s'.currentDirection = d :=
  ⟨_, changeAnimation_commit s animationName direction entry d seq hentry hres hseq
      hchange, rfl, rfl, rfl, rfl, rfl, rfl⟩

/-- C1 witness: switching from the 12-frame "run" cycle at frame index 9
to the 6-frame "walk" cycle lands on frame 5, not 0, still playing. -/
theorem changeAnimation_frame_preserving_witness :
    ∃ s', changeAnimation demoState "walk" none = .ok s' ∧
      s'.host.textures = sliceRow 0 6 64 64 ∧
      s'.host.animationSpeed = walkEntry.speed ∧
      s'.host.currentFrame = min demoState.host.currentFrame (((sliceRow 0 6 64 64).length : Int) - 1) ∧
      s'.host.playing = demoState.host.playing ∧
      s'.currentAnimation = some "walk" ∧
      s'.currentDirection = "down" := by
  obtain ⟨s', h1, h2, h3, h4, h5, h6, h7⟩ :=
    changeAnimation_frame_preserving demoState "walk" none walkEntry "down"
      (sliceRow 0 6 64 64) (by decide) (by decide) (by decide) (by decide)
  exact ⟨s', h1, h2, h3, h4, h5, h6, h7⟩

/-- The demo transition's clamped target frame evaluates to 5. -/
theorem demo_walk_target_frame_is_five :
    min demoState.host.currentFrame (((sliceRow 0 6 64 64).length : Int) - 1) = 5 := by
  decide

/-- C5: when the resolved direction (the argument, or `currentDirection`
for a null argument) is not a key of the target entry's direction
mapping, `changeAnimation` substitutes the entry's first direction key in
insertion order and the transition succeeds with no error reported. -/
theorem changeAnimation_direction_fallback (s : CharState) (animationName : String)
    (direction : Option String) (entry : AnimationEntry) (d0 : String)
    (seq0 : List Region) (rest : List (String × List Region))
    (hentry : jsGet s.animations animationName = some entry)
    (hmiss : jsGet entry.textures (direction.getD s.currentDirection) = none)
    (hfirst : entry.textures = (d0, seq0) :: rest) :
    ∃ s', changeAnimation s animationName direction = .ok s' ∧
      s'.currentAnimation = some animationName ∧
      s'.currentDirection = d0 ∧
      s'.errorLog = s.errorLog := by
  have hres : resolveDirection entry (direction.getD s.currentDirection) = some d0 := by
    unfold resolveDirection
    rw [if_neg (by simp [hmiss]), hfirst]
    simp [keysOf]
  by_cases hcond : s.currentAnimation = some animationName ∧ d0 = s.currentDirection
  · exact ⟨s, changeAnimation_noop s animationName direction entry hentry hcond.1
      (by rw [hres, hcond.2]), hcond.1, hcond.2.symm, rfl⟩
  · have hseq0 : jsGet entry.textures d0 = some seq0 := by
      rw [hfirst]; simp [jsGet]
    exact ⟨_, changeAnimation_commit s animationName direction entry d0 seq0 hentry
      hres hseq0 hcond, rfl, rfl, rfl⟩

/-- C5 witness: with "hurt" registered only with direction "down",
`changeAnimation("hurt", "left")` resolves to "down" and succeeds. -/
theorem changeAnimation_direction_fallback_witness :
    ∃ s', changeAnimation demoState "hurt" (some "left") = .ok s' ∧
      s'.currentAnimation = some "hurt" ∧
      s'.currentDirection = "down" ∧
      s'.errorLog = demoState.errorLog := by
  exact changeAnimation_direction_fallback demoState "hurt" (some "left") hurtEntry
    "down" (sliceRow 0 1 64 64) [] (by decide) (by decide) (by decide)

/-- C6: calling `changeAnimation` twice in a row with identical arguments
mutates the host exactly once — the first (really changing) call performs
exactly one frame-sequence swap, and the second call is a pure no-op
returning the state unchanged, so repeated identical calls never restart
the animation. -/
theorem changeAnimation_idempotent (s : CharState) (animationName : String)
    (direction : Option String) (entry : AnimationEntry) (d : String)
    (hentry : jsGet s.animations animationName = some entry)
    (hres : resolveDirection entry (direction.getD s.currentDirection) = some d)
    (hchange : ¬(s.currentAnimation = some animationName ∧ d = s.currentDirection)) :
    ∃ s1, changeAnimation s animationName direction = .ok s1 ∧
      changeAnimation s1 animationName direction = .ok s1 ∧
      s1.host.swaps = s.host.swaps + 1 := by
  obtain ⟨seq, hseq⟩ := Option.isSome_iff_exists.1 (resolveDirection_mem entry _ d hres)
  refine ⟨_, changeAnimation_commit s animationName direction entry d seq hentry hres
    hseq hchange, ?_, rfl⟩
  apply changeAnimation_noop _ _ _ entry
  · exact hentry
  · rfl
  · cases direction with
    | none =>
      show resolveDirection entry d = some d
      exact resolveDirection_self entry d (by rw [hseq]; rfl)
    | some dd =>
      show resolveDirection entry dd = some d
      exact hres

/-- C6 witness: a concrete repeated `changeAnimation("walk", "down")` —
the first call swaps the host sequence once, the second returns the state
unchanged. -/
theorem changeAnimation_idempotent_witness :
    ∃ s1, changeAnimation demoState "walk" (some "down") = .ok s1 ∧
      changeAnimation s1 "walk" (some "down") = .ok s1 ∧
      s1.host.swaps = demoState.host.swaps + 1 := by
  exact changeAnimation_idempotent demoState "walk" (some "down") walkEntry "down"
    (by decide) (by decide) (by decide)

/-- C7: for an unregistered name, `changeAnimation` reports the unknown
animation on the error log and leaves every other component of the state
(current pair, registry, host) unchanged; and in general (for entries with
non-empty direction mappings, the only ones the host contract covers) the
operation is atomic — it returns normally and either only reports, or
no-ops, or fully commits the new pair together with the host swap. -/
theorem changeAnimation_unknown_and_atomic (s : CharState) (animationName : String)
    (direction : Option String) :
    (jsGet s.animations animationName = none →
      changeAnimation s animationName direction
        = .ok { s with errorLog := unknownAnimationMsg animationName :: s.errorLog }) ∧
    ((∀ e, jsGet s.animations animationName = some e → e.textures ≠ []) →
      ∃ s', changeAnimation s animationName direction = .ok s' ∧
        (s' = { s with errorLog := unknownAnimationMsg animationName :: s.errorLog } ∨
          s' = s ∨
          ∃ e d seq, jsGet s.animations animationName = some e ∧
            resolveDirection e (direction.getD s.currentDirection) = some d ∧
            jsGet e.textures d = some seq ∧
            s'.currentAnimation = some animationName ∧
            s'.currentDirection = d ∧
            s'.host.textures = seq ∧
            s'.host.animationSpeed = e.speed ∧
            s'.animations = s.animations ∧
            s'.errorLog = s.errorLog)) := by
  constructor
  · intro h
    exact changeAnimation_unknown s animationName direction h
  · intro hne
    cases hentry : jsGet s.animations animationName with
    | none =>
      exact ⟨_, changeAnimation_unknown s animationName direction hentry, Or.inl rfl⟩
    | some e =>
      obtain ⟨d, hd⟩ := Option.isSome_iff_exists.1
        (resolveDirection_isSome e _ (hne e hentry))
      by_cases hcond : s.currentAnimation = some animationName ∧ d = s.currentDirection
      · exact ⟨s, changeAnimation_noop s animationName direction e hentry hcond.1
          (by rw [hd, hcond.2]), Or.inr (Or.inl rfl)⟩
      · obtain ⟨seq, hseq⟩ := Option.isSome_iff_exists.1 (resolveDirection_mem e _ d hd)
        exact ⟨_, changeAnimation_commit s animationName direction e d seq hentry hd
          hseq hcond,
          Or.inr (Or.inr ⟨e, d, seq, rfl, hd, hseq, rfl, rfl, rfl, rfl, rfl, rfl⟩)⟩

/-- C7 witness: `changeAnimation("ghost")` on a state without "ghost"
reports the unknown animation and changes nothing else. -/
theorem changeAnimation_unknown_and_atomic_witness :
    changeAnimation demoState "ghost" none
      = .ok { demoState with errorLog := [unknownAnimationMsg "ghost"] } :=
  (changeAnimation_unknown_and_atomic demoState "ghost" none).1 (by decide)

/-- C9: the slicer returns `frameCount = floor(width / frameWidth)` and
every produced texture region lies fully within the image bounds. -/
theorem slice_frameCount_and_bounds (baseTexture : Image)
    (frameWidth frameHeight : Nat) (directions : List String)
    (hfw : 0 < frameWidth) (hfh : 0 < frameHeight) :
    (createFrameTextures baseTexture frameWidth frameHeight directions).2
      = baseTexture.width / frameWidth ∧
    ∀ p ∈ (createFrameTextures baseTexture frameWidth frameHeight directions).1,
      ∀ r ∈ p.2, r.x + r.w ≤ baseTexture.width ∧ r.y + r.h ≤ baseTexture.height := by
  refine ⟨rfl, ?_⟩
  rw [createFrameTextures_fst]
  refine assocFold_values
    (fun (v : List Region) => ∀ r ∈ v,
      r.x + r.w ≤ baseTexture.width ∧ r.y + r.h ≤ baseTexture.height)
    _ _ (by simp) ?_
  intro p hp
  simp only [sliceRows, List.mem_map, List.mem_range] at hp
  obtain ⟨row, hrow, rfl⟩ := hp
  intro r hr
  exact sliceRow_mem_bounds baseTexture.width baseTexture.height frameWidth
    frameHeight row hrow r hr

/-- C9 witness: a 128×256 sheet with 64×64 frames has frame count 2 and
in-bounds regions. -/
theorem slice_frameCount_and_bounds_witness :
    (createFrameTextures ⟨128, 256⟩ 64 64 ["up", "left", "down", "right"]).2
      = 128 / 64 ∧
    ∀ p ∈ (createFrameTextures ⟨128, 256⟩ 64 64 ["up", "left", "down", "right"]).1,
      ∀ r ∈ p.2, r.x + r.w ≤ 128 ∧ r.y + r.h ≤ 256 :=
  slice_frameCount_and_bounds ⟨128, 256⟩ 64 64 ["up", "left", "down", "right"]
    (by decide) (by decide)

/-- C2 counterexample: slicing a 64×320 sheet (5 rows) with 4 direction
labels does NOT drop the fifth row — the mapping gains the key
"undefined" (the coerced JS `undefined` label) holding that row's
frames, so a key beyond the label list does appear. -/
theorem slice_extra_rows_counterexample :
    keysOf (createFrameTextures ⟨64, 320⟩ 64 64 ["up", "left", "down", "right"]).1
      = ["up", "left", "down", "right", "undefined"] ∧
    jsGet (createFrameTextures ⟨64, 320⟩ 64 64 ["up", "left", "down", "right"]).1
      "undefined" = some (sliceRow 4 1 64 64) ∧
    (["up", "left", "down", "right"] : List String).length = 4 ∧
    (320 : Nat) / 64 = 5 := by
  decide

/-- C2 (amended): frame sequences are produced for every row index
`r < rowCount`, not only `r < len(directionLabels)`; when `rowCount`
exceeds the label list the surplus rows are stored under the coerced key
"undefined" (which the mapping gains), while for
`rowCount ≤ len(directionLabels)` with distinct labels the mapping's keys
are exactly the first `rowCount` labels. -/
theorem slice_extra_rows_amended (baseTexture : Image)
    (frameWidth frameHeight : Nat) (directions : List String)
    (hfw : 0 < frameWidth) (hfh : 0 < frameHeight) :
    (directions.length < baseTexture.height / frameHeight →
      "undefined" ∈ keysOf (createFrameTextures baseTexture frameWidth frameHeight
        directions).1) ∧
    (baseTexture.height / frameHeight ≤ directions.length → directions.Nodup →
      keysOf (createFrameTextures baseTexture frameWidth frameHeight directions).1
        = directions.take (baseTexture.height / frameHeight)) := by
  constructor
  · intro hlt
    rw [createFrameTextures_fst]
    apply mem_keysOf_assocFold
    simp only [sliceRows, List.map_map]
    refine List.mem_map.2 ⟨directions.length, List.mem_range.2 hlt, ?_⟩
    simp [Function.comp, List.get?_eq_none.2 le_rfl]
  · intro hle hnd
    rw [createFrameTextures_fst]
    have hkeys : (sliceRows baseTexture frameWidth frameHeight directions).map Prod.fst
        = directions.take (baseTexture.height / frameHeight) := by
      simp only [sliceRows, List.map_map]
      rw [← rangeMap_take directions (baseTexture.height / frameHeight) hle]
      rfl
    rw [assocFold_fresh _ _ (by rw [hkeys]; exact hnd.sublist (List.take_sublist _ _))
      (by simp [keysOf])]
    simpa [keysOf] using hkeys

/-- C2 amended witness: a 5-row sheet gains the "undefined" key; a 4-row
sheet with the 4 standard labels has exactly those keys. -/
theorem slice_extra_rows_amended_witness :
    "undefined" ∈ keysOf (createFrameTextures ⟨64, 320⟩ 64 64
      ["up", "left", "down", "right"]).1 ∧
    keysOf (createFrameTextures ⟨64, 256⟩ 64 64 ["up", "left", "down", "right"]).1
      = ["up", "left", "down", "right"] := by
  constructor
  · exact (slice_extra_rows_amended ⟨64, 320⟩ 64 64 ["up", "left", "down", "right"]
      (by decide) (by decide)).1 (by decide)
  · exact ((slice_extra_rows_amended ⟨64, 256⟩ 64 64 ["up", "left", "down", "right"]
      (by decide) (by decide)).2 (by decide) (by decide)).trans (by decide)

/-- C4 counterexample: a 3×64 image (too narrow for one 64×64 frame)
yields `frameCount = 0` but the mapping binds the direction key "up" to
an EMPTY sequence instead of omitting it. -/
theorem slice_empty_sequence_counterexample :
    jsGet (createFrameTextures ⟨3, 64⟩ 64 64 ["up", "left", "down", "right"]).1 "up"
      = some [] ∧
    (createFrameTextures ⟨3, 64⟩ 64 64 ["up", "left", "down", "right"]).2 = 0 := by
  decide

/-- C4 (amended): for positive frame dimensions the slicer always returns
(no error) with `frameCount = floor(width/frameWidth)`; every stored
direction sequence has length `frameCount` — so on a degenerate image a
direction with zero regions is stored as an empty sequence rather than
omitted — and the mapping itself is empty exactly when the image is too
short for even one row. -/
theorem slice_degenerate_amended (baseTexture : Image)
    (frameWidth frameHeight : Nat) (directions : List String)
    (hfw : 0 < frameWidth) (hfh : 0 < frameHeight) :
    (createFrameTextures baseTexture frameWidth frameHeight directions).2
      = baseTexture.width / frameWidth ∧
    (∀ p ∈ (createFrameTextures baseTexture frameWidth frameHeight directions).1,
      p.2.length = baseTexture.width / frameWidth) ∧
    ((createFrameTextures baseTexture frameWidth frameHeight directions).1 = []
      ↔ baseTexture.height < frameHeight) := by
  refine ⟨rfl, ?_, ?_⟩
  · rw [createFrameTextures_fst]
    refine assocFold_values
      (fun (v : List Region) => v.length = baseTexture.width / frameWidth)
      _ _ (by simp) ?_
    intro p hp
    simp only [sliceRows, List.mem_map, List.mem_range] at hp
    obtain ⟨row, hrow, rfl⟩ := hp
    exact sliceRow_length _ _ _ _
  · rw [createFrameTextures_fst]
    rcases Nat.lt_or_ge baseTexture.height frameHeight with hlt | hge
    · have hrc : baseTexture.height / frameHeight = 0 := Nat.div_eq_of_lt hlt
      simp [sliceRows, hrc, assocFold_nil, hlt]
    · have hne : assocFold (sliceRows baseTexture frameWidth frameHeight directions)
          [] ≠ [] := by
        refine assocFold_ne_nil _ _ (Or.inl ?_)
        simp only [sliceRows, ne_eq, List.map_eq_nil_iff, List.range_eq_nil]
        have := (Nat.one_le_div_iff hfh).2 hge
        omega
      constructor
      · intro h
        exact absurd h hne
      · intro h
        omega

/-- C4 amended witness: the degenerate 3×64 image at concrete inputs. -/
theorem slice_degenerate_amended_witness :
    (createFrameTextures ⟨3, 64⟩ 64 64 ["up", "left", "down", "right"]).2 = 3 / 64 ∧
    (∀ p ∈ (createFrameTextures ⟨3, 64⟩ 64 64 ["up", "left", "down", "right"]).1,
      p.2.length = 3 / 64) ∧
    ((createFrameTextures ⟨3, 64⟩ 64 64 ["up", "left", "down", "right"]).1 = []
      ↔ (64 : Nat) < 64) :=
  slice_degenerate_amended ⟨3, 64⟩ 64 64 ["up", "left", "down", "right"]
    (by decide) (by decide)

/-- C3 counterexample: re-registering the current animation name "run"
with a different direction set leaves `currentDirection` dangling — the
invariant holds after the first registration and is broken by the
overwrite. -/
theorem invariant_reregistration_counterexample :
    invHolds (outState (addAnimation initialCharacter "run"
      [("down", sliceRow 0 1 64 64)] 1 1)) = true ∧
    invHolds (outState (addAnimation
      (outState (addAnimation initialCharacter "run" [("down", sliceRow 0 1 64 64)] 1 1))
      "run" [("up", sliceRow 0 1 64 64)] 1 1)) = false := by
  decide

/-- C3 (amended): the invariant — a non-null `currentAnimation` is a
registered key whose entry's direction mapping contains
`currentDirection` — is preserved by `changeAnimation` and
`changeDirection` unconditionally, and by `addAnimation` except in the
one case the counterexample exhibits: overwriting the entry the current
name points at with a mapping that no longer contains the current
direction (the hypothesis below rules exactly that out). -/
theorem invariant_preservation_amended (s : CharState) (h : invHolds s = true) :
    (∀ animationName direction,
      invHolds (outState (changeAnimation s animationName direction)) = true) ∧
    (∀ direction, invHolds (outState (changeDirection s direction)) = true) ∧
    (∀ name textureData frameCount speed,
      (∀ nm, s.currentAnimation = some nm → name = nm →
        (jsGet textureData s.currentDirection).isSome) →
      invHolds (outState (addAnimation s name textureData frameCount speed)) = true) :=
  ⟨fun animationName direction => inv_changeAnimation s animationName direction h,
    fun direction => inv_changeDirection s direction h,
    fun name textureData frameCount speed hre =>
      inv_addAnimation s name textureData frameCount speed h hre⟩

/-- C3 amended witness: the three operations preserve the invariant on a
concrete consistent state. -/
theorem invariant_preservation_amended_witness :
    invHolds (outState (changeAnimation demoState "walk" none)) = true ∧
    invHolds (outState (changeDirection demoState "up")) = true ∧
    invHolds (outState (addAnimation demoState "jump"
      [("down", sliceRow 0 3 64 64)] 3 1)) = true := by
  have h := invariant_preservation_amended demoState (by decide)
  refine ⟨h.1 "walk" none, h.2.1 "up", h.2.2 "jump" _ 3 1 ?_⟩
  intro nm hnm heq
  subst heq
  exact absurd hnm (by decide)

/-- C10 counterexample: with an animation registered under the empty
string name, `currentAnimationName` is non-null (`some ""`) yet a later
`addAnimation` of a different name still auto-activates (the source
tests JS truthiness, and `""` is falsy): the current pair changes and
the host is swapped again. -/
theorem addAnimation_empty_name_counterexample :
    (outState (addAnimation initialCharacter "" [("down", sliceRow 0 1 64 64)] 1 1)).currentAnimation
      = some "" ∧
    (outState (addAnimation
      (outState (addAnimation initialCharacter "" [("down", sliceRow 0 1 64 64)] 1 1))
      "x" [("down", sliceRow 0 1 64 64)] 1 1)).currentAnimation = some "x" ∧
    (outState (addAnimation
      (outState (addAnimation initialCharacter "" [("down", sliceRow 0 1 64 64)] 1 1))
      "x" [("down", sliceRow 0 1 64 64)] 1 1)).host.swaps
      = (outState (addAnimation initialCharacter "" [("down", sliceRow 0 1 64 64)] 1 1)).host.swaps
        + 1 := by
  decide

/-- C10 (amended): when `currentAnimationName` is non-null AND non-empty
(the truthiness check of the source treats the falsy `""` as unset),
`addAnimation` only inserts/overwrites the named registry entry and
returns normally: the current pair and the whole host state are
untouched, and every other registry key is unchanged. -/
theorem addAnimation_no_reactivation_amended (s : CharState) (name : String)
    (textureData : List (String × List Region)) (frameCount : Nat) (speed : ℚ)
    (nm : String) (hcur : s.currentAnimation = some nm) (hne : nm ≠ "") :
    addAnimation s name textureData frameCount speed
      = .ok { s with animations := (jsSet s.animations name
          (mkEntry textureData frameCount speed)) } ∧
    ∀ k, k ≠ name →
      jsGet (jsSet s.animations name (mkEntry textureData frameCount speed)) k
        = jsGet s.animations k := by
  constructor
  · unfold addAnimation
    dsimp only
    rw [hcur]
    rw [if_neg (by simp [jsFalsy, hne])]
  · intro k hk
    exact jsGet_jsSet_ne _ _ _ _ hk

/-- C10 amended witness: registering "extra" while "run" is active only
extends the registry. -/
theorem addAnimation_no_reactivation_amended_witness :
    addAnimation demoState "extra" [("down", sliceRow 0 2 64 64)] 2 1
      = .ok { demoState with animations := (jsSet demoState.animations "extra"
          (mkEntry [("down", sliceRow 0 2 64 64)] 2 1)) } ∧
    jsGet (jsSet demoState.animations "extra" (mkEntry [("down", sliceRow 0 2 64 64)] 2 1))
      "run" = jsGet demoState.animations "run" := by
  have h := addAnimation_no_reactivation_amended demoState "extra"
    [("down", sliceRow 0 2 64 64)] 2 1 "run" (by decide) (by decide)
  exact ⟨h.1, h.2 "run" (by decide)⟩

/-- C8: each animation's load failure is recorded as a `(name, reason)`
entry and never aborts the remaining entries — for every configuration
list the factory processes all entries (`total` is the configured count
and every entry lands in exactly one of the two result lists), and in
the concrete `{a, b}` scenario where only `b`'s asset fails the result
is `succeeded = [a]`, `failed = [(b, reason)]`, `total = 2`, with only
`a` registered on the returned controller. -/
theorem factory_failure_isolation (loader : String → Except String Image)
    (a b : String) (sa sb : ℚ) (img : Image) (reason : String)
    (frameW frameH : Nat) (directions : List String) (basePath : String)
    (hla : loader (basePath ++ a ++ ".png") = .ok img)
    (hlb : loader (basePath ++ b ++ ".png") = .error reason)
    (hfh : 0 < frameH) (hgeom : frameH ≤ img.height) :
    (∀ configs : List (String × ℚ),
      (createCharacterWithManyAnimations loader configs frameW frameH directions
        basePath).2.total = configs.length ∧
      (createCharacterWithManyAnimations loader configs frameW frameH directions
        basePath).2.successful.length
        + (createCharacterWithManyAnimations loader configs frameW frameH directions
            basePath).2.failed.length = configs.length) ∧
    ((createCharacterWithManyAnimations loader [(a, sa), (b, sb)] frameW frameH
        directions basePath).2.successful = [a] ∧
      (createCharacterWithManyAnimations loader [(a, sa), (b, sb)] frameW frameH
        directions basePath).2.failed = [(b, reason)] ∧
      (createCharacterWithManyAnimations loader [(a, sa), (b, sb)] frameW frameH
        directions basePath).2.total = 2 ∧
      keysOf (createCharacterWithManyAnimations loader [(a, sa), (b, sb)] frameW
        frameH directions basePath).1.animations = [a]) := by
  constructor
  · intro configs
    refine ⟨rfl, ?_⟩
    have h := factory_step_count loader frameW frameH directions basePath configs
      (initialCharacter, [], [])
    simpa [createCharacterWithManyAnimations] using h
  · have hrc : 0 < img.height / frameH := (Nat.one_le_div_iff hfh).2 hgeom
    have hne := createFrameTextures_ne_nil img frameW frameH directions hrc
    obtain ⟨s', hadd, hanim⟩ := addAnimation_first initialCharacter a
      (createFrameTextures img frameW frameH directions).1
      (createFrameTextures img frameW frameH directions).2 sa rfl hne
    have h1 : factoryStep loader frameW frameH directions basePath
        (initialCharacter, [], []) (a, sa) = (s', [a], []) := by
      simp [factoryStep, hla, hadd]
    have h2 : factoryStep loader frameW frameH directions basePath
        (s', [a], []) (b, sb) = (s', [a], [(b, reason)]) := by
      simp [factoryStep, hlb]
    have hanim' : s'.animations
        = [(a, mkEntry (createFrameTextures img frameW frameH directions).1
            (createFrameTextures img frameW frameH directions).2 sa)] := by
      rw [hanim]
      rfl
    refine ⟨?_, ?_, rfl, ?_⟩ <;>
      simp [createCharacterWithManyAnimations, h1, h2, hanim', keysOf]

/-- The Asset Provider used by the factory witness: only `pngs/a.png`
resolves (to a 64×256 image); everything else fails with "404". -/
def loaderDemo : String → Except String Image := fun p =>
  if p = "pngs/a.png" then .ok ⟨64, 256⟩ else .error "404"

/-- C8 witness: the concrete `{a, b}` batch where only `b` fails. -/
theorem factory_failure_isolation_witness :
    (createCharacterWithManyAnimations loaderDemo [("a", 1), ("b", 2)] 64 64
      ["up", "left", "down", "right"] "pngs/").2.successful = ["a"] ∧
    (createCharacterWithManyAnimations loaderDemo [("a", 1), ("b", 2)] 64 64
      ["up", "left", "down", "right"] "pngs/").2.failed = [("b", "404")] ∧
    (createCharacterWithManyAnimations loaderDemo [("a", 1), ("b", 2)] 64 64
      ["up", "left", "down", "right"] "pngs/").2.total = 2 ∧
    keysOf (createCharacterWithManyAnimations loaderDemo [("a", 1), ("b", 2)] 64 64
      ["up", "left", "down", "right"] "pngs/").1.animations = ["a"] :=
  (factory_failure_isolation loaderDemo "a" "b" 1 2 ⟨64, 256⟩ "404" 64 64
    ["up", "left", "down", "right"] "pngs/" rfl rfl (by decide) (by decide)).2

end AnimChar
